import Mathlib

/-!
Verification of the voice-registry service (`app.py`): the enrollment
consistency validator, the profile store, and the identification matcher.
Floats are modelled as real numbers; numpy arrays as lists of reals; the
directory of JSON profile files as an association list from file key
(the `user_id`) to record contents.
-/

namespace VoiceRegistry

/-- Embeddings are fixed-dimension real vectors; the Python code manipulates
them as numpy float arrays, modelled here as lists of reals. -/
abbrev Vec := List ℝ

/-- Dot product of two vectors (the inner product underlying sklearn's
cosine similarity). On a length mismatch `zipWith` truncates; numpy would
raise, and no reachable code path mixes dimensions. -/
def dot (a b : Vec) : ℝ := (List.zipWith (· * ·) a b).sum

/-- Euclidean norm, `np.linalg.norm v`: square root of the self dot product. -/
noncomputable def norm2 (a : Vec) : ℝ := Real.sqrt (dot a a)

/-- sklearn `cosine_similarity([a], [b])[0][0]` = a·b / (‖a‖·‖b‖). -/
noncomputable def cosineSim (a b : Vec) : ℝ := dot a b / (norm2 a * norm2 b)

/-- L2 normalization `v / np.linalg.norm(v)` as in `create_voice_profile`. -/
noncomputable def normalize (v : Vec) : Vec := v.map (· / norm2 v)

/-- Element-wise vector addition (numpy `+` on equal-length arrays). -/
def vadd (a b : Vec) : Vec := List.zipWith (· + ·) a b

/-- `np.mean(embeddings, axis=0)`: element-wise sum divided by the count. -/
noncomputable def vecMean (es : List Vec) : Vec :=
  match es with
  | [] => []
  | e :: rest => (rest.foldl vadd e).map (· / ((rest.length + 1 : ℕ) : ℝ))

/-- The double loop of `create_voice_profile`: for every index `i`, the
cosine similarity with every later index `j > i`, collected in order. -/
noncomputable def pairwiseSims : List Vec → List ℝ
  | [] => []
  | e :: rest => rest.map (cosineSim e) ++ pairwiseSims rest

/-- The fixed enrollment phrase catalog `ENROLLMENT_PHRASES` from `app.py`. -/
def ENROLLMENT_PHRASES : List String :=
  [ "The quick brown fox jumps over the lazy dog"
  , "She sells seashells by the seashore"
  , "How much wood would a woodchuck chuck if a woodchuck could chuck wood"
  , "Peter Piper picked a peck of pickled peppers"
  , "Red leather yellow leather"
  , "The five boxing wizards jump quickly"
  , "Pack my box with five dozen liquor jugs"
  , "Sphinx of black quartz judge my vow"
  , "How vexingly quick daft zebras jump"
  , "Waltz bad nymph for quick jigs vex"
  , "Please call Stella and ask her to bring these things with her from the store"
  , "The birch canoe slid on the smooth planks"
  , "Say the words below to complete voice setup"
  , "My voice is stronger than passwords"
  , "Ready to learn my voice" ]

/-- Configuration constant `REQUIRED_PHRASES = 5`. -/
def REQUIRED_PHRASES : ℕ := 5

/-- Configuration constant `IDENTIFICATION_THRESHOLD = 0.82`. -/
noncomputable def IDENTIFICATION_THRESHOLD : ℝ := 82 / 100

/-- The persisted voice profile document built by `create_voice_profile`.
`user_id` is the uuid4 string, `voice_embedding` the normalized centroid,
`phrase_embeddings` the raw per-sample embeddings. -/
structure Profile where
  user_id : String
  user_name : String
  voice_embedding : Vec
  phrase_embeddings : List Vec
  phrase_indices : List ℕ
  phrases_used : List String
  consistency_score : ℝ
  min_consistency : ℝ
  enrollment_timestamp : ℝ
  embedding_dim : ℕ

/-- Ways `create_voice_profile` can raise: `statsError` is the
`statistics.mean([])` failure when fewer than two embeddings produce no
pairs, `inconsistent` is the `ValueError("Voice samples inconsistent ...")`,
and `indexError` is the `ENROLLMENT_PHRASES[i]` access with an out-of-range
index (unreachable from the endpoint, which validates indices first). -/
inductive CreateError where
  | statsError
  | inconsistent
  | indexError
deriving DecidableEq

/-- `create_voice_profile(embeddings, user_name, phrase_indices)`:
computes all pairwise similarities, their mean and minimum, rejects the
batch when the minimum is below 0.70, otherwise builds the profile with
the re-normalized centroid. `uid` stands for the fresh `uuid.uuid4()`
string and `ts` for `time.time()`, both ambient effects in Python. -/
noncomputable def create_voice_profile (embeddings : List Vec) (user_name : String)
    (phrase_indices : List ℕ) (uid : String) (ts : ℝ) : Except CreateError Profile :=
  match pairwiseSims embeddings with
  | [] => .error .statsError
  | s :: ss =>
    let avg : ℝ := (s :: ss).sum / ((s :: ss).length : ℝ)
    let minC : ℝ := ss.foldl min s
    if minC < 7 / 10 then .error .inconsistent
    else if phrase_indices.all (· < ENROLLMENT_PHRASES.length) then
      let centroid := normalize (vecMean embeddings)
      .ok { user_id := uid
          , user_name := user_name
          , voice_embedding := centroid
          , phrase_embeddings := embeddings
          , phrase_indices := phrase_indices
          , phrases_used := phrase_indices.map (fun i => ENROLLMENT_PHRASES.getD i "")
          , consistency_score := avg
          , min_consistency := minC
          , enrollment_timestamp := ts
          , embedding_dim := centroid.length }
    else .error .indexError

/-- Contents of one `{user_id}.json` file in the registry directory:
either a well-formed profile document or bytes `json.load` rejects. -/
inductive Record where
  | good (p : Profile)
  | corrupt

/-- The registry directory `./data/voice_registry`, as the list of its
`.json` files in enumeration order: file key (the `user_id` stem) paired
with the file's contents. -/
abbrev Store := List (String × Record)

/-- Os-level read of the file named `{k}.json`, if present. -/
def readRecord (store : Store) (k : String) : Option Record :=
  (store.find? (fun e => e.1 == k)).map (fun e => e.2)

/-- Writing file `{k}.json`: replaces the contents if the file exists,
otherwise creates it. -/
def setRecord (store : Store) (k : String) (r : Record) : Store :=
  if store.any (fun e => e.1 == k) then
    store.map (fun e => if e.1 == k then (k, r) else e)
  else store ++ [(k, r)]

/-- Os-level `os.remove` of file `{k}.json`. -/
def removeRecord (store : Store) (k : String) : Store :=
  store.filter (fun e => !(e.1 == k))

/-- `save_voice_profile(profile)`: writes the profile document to
`{user_id}.json`. -/
def save_voice_profile (p : Profile) (store : Store) : Store :=
  setRecord store p.user_id (.good p)

/-- Intermediate state of `save_voice_profile`: `open(path, "w")` truncates
the destination before `json.dump` streams the body, so between the open
and the completed dump the file exists at the profile's key but does not
parse as the profile. -/
def save_open (p : Profile) (store : Store) : Store :=
  setRecord store p.user_id .corrupt

/-- `load_all_profiles()` together with its `print` warnings: walks the
directory in order, parses each `.json` file, collects the profiles that
parse and a warning line for each file that does not. -/
def load_all_profiles_logged : Store → List Profile × List String
  | [] => ([], [])
  | e :: rest =>
    let r := load_all_profiles_logged rest
    match e.2 with
    | .good p => (p :: r.1, r.2)
    | .corrupt => (r.1, ("Error loading profile " ++ e.1) :: r.2)

/-- `load_all_profiles()`: the successfully parsed profiles, in directory
enumeration order. -/
def load_all_profiles (store : Store) : List Profile :=
  (load_all_profiles_logged store).1

/-- Python `str.lower()` on the ASCII names used by the registry. -/
def strLower (s : String) : String := ⟨s.data.map Char.toLower⟩

/-- Failure modes of the `/register_voice` endpoint (each is a structured
4xx/5xx `JSONResponse` in the source, in this order of checks). -/
inductive RegError where
  | countMismatch
  | tooFewPhrases
  | invalidIndices
  | duplicateName
  | createFailed (e : CreateError)
deriving DecidableEq

/-- The `/register_voice` endpoint after audio upload and embedding
extraction: validates counts and phrase indices, rejects duplicate names
case-insensitively against the loaded registry, then creates and saves the
profile. Returns the endpoint outcome together with the resulting store;
every error path leaves the store untouched. -/
noncomputable def register_voice (user_name : String) (phrase_idx_list : List ℕ)
    (embeddings : List Vec) (uid : String) (ts : ℝ) (store : Store) :
    Except RegError Profile × Store :=
  if embeddings.length ≠ phrase_idx_list.length then (.error .countMismatch, store)
  else if embeddings.length < REQUIRED_PHRASES then (.error .tooFewPhrases, store)
  else if ¬ (phrase_idx_list.all (· < ENROLLMENT_PHRASES.length)) then
    (.error .invalidIndices, store)
  else if (load_all_profiles store).any
      (fun p => strLower p.user_name == strLower user_name) then
    (.error .duplicateName, store)
  else
    match create_voice_profile embeddings user_name phrase_idx_list uid ts with
    | .error e => (.error (.createFailed e), store)
    | .ok profile => (.ok profile, save_voice_profile profile store)

/-- One element of the `all_scores` ranking built by `identify_speaker`. -/
structure ScoreEntry where
  user_id : String
  user_name : String
  score : ℝ
  centroid_similarity : ℝ
  max_phrase_similarity : ℝ

/-- Per-profile body of the `identify_speaker` loop: centroid similarity,
the per-phrase similarities, the Python `max` over them (which raises on an
empty sequence, hence the `Option`), and the final score. -/
noncomputable def mkEntry (probe : Vec) (p : Profile) : Option ScoreEntry :=
  match p.phrase_embeddings.map (cosineSim probe) with
  | [] => none
  | s :: ss =>
    let maxPhraseSim := ss.foldl max s
    let centroidSim := cosineSim probe p.voice_embedding
    some { user_id := p.user_id
         , user_name := p.user_name
         , score := max centroidSim maxPhraseSim
         , centroid_similarity := centroidSim
         , max_phrase_similarity := maxPhraseSim }

/-- The running `(best_match, best_score)` accumulation of
`identify_speaker`, starting from `(None, 0.0)` and replacing the pair
whenever a profile's final score strictly exceeds the best so far. -/
noncomputable def bestFold (l : List (Profile × ℝ)) : Option Profile × ℝ :=
  l.foldl (fun acc pr => if pr.2 > acc.2 then (some pr.1, pr.2) else acc) (none, 0)

/-- Result triple of `identify_speaker`: either the literal
`(None, 0.0, "No profiles in registry")` for an empty registry, or
`(best_match_or_None, best_score, sorted all_scores)`. -/
inductive MatchOut where
  | noProfiles
  | result (best : Option Profile) (bestScore : ℝ) (allScores : List ScoreEntry)

/-- The `all_scores` accumulation of the `identify_speaker` loop, one
entry per profile in order; `none` propagates the uncaught `ValueError`
of `max([])` on a profile with no phrase embeddings. -/
noncomputable def entriesOf (probe : Vec) : List Profile → Option (List ScoreEntry)
  | [] => some []
  | p :: rest =>
    match mkEntry probe p, entriesOf probe rest with
    | some e, some es => some (e :: es)
    | _, _ => none

/-- `identify_speaker(test_embedding)` over the given loaded profiles:
scores every profile, tracks the strict-improvement best, sorts the
ranking by descending score (Python's stable sort), and withholds the best
match when the best score is below the threshold. -/
noncomputable def identify_speaker (probe : Vec) (profiles : List Profile)
    (threshold : ℝ) : Option MatchOut :=
  if profiles.isEmpty then some .noProfiles
  else
    match entriesOf probe profiles with
    | none => none
    | some entries =>
      let best := bestFold (profiles.zip (entries.map (fun e => e.score)))
      let sorted := entries.mergeSort (fun a b => decide (b.score ≤ a.score))
      if best.2 ≥ threshold then some (.result best.1 best.2 sorted)
      else some (.result none best.2 sorted)

/-- The `ranking` field of the `/identify_voice` response: on the
empty-registry path the Python code slices the *string*
`"No profiles in registry"` with `[:3]`, yielding `"No "`; otherwise it is
a list slice of the sorted scores. -/
inductive RankingOut where
  | msg (s : String)
  | scores (l : List ScoreEntry)

/-- JSON body of the `/identify_voice` endpoint response. -/
structure IdentifyResponse where
  identified : Bool
  user_id : Option String
  user_name : Option String
  score : ℝ
  ranking : RankingOut

/-- Response assembly of `/identify_voice` from the `identify_speaker`
triple: a truthy match gives the identified response with the top-5
ranking, otherwise the not-identified response with the top-3 ranking. -/
noncomputable def identify_voice_response (m : MatchOut) : IdentifyResponse :=
  match m with
  | .noProfiles =>
    { identified := false, user_id := none, user_name := none, score := 0
    , ranking := .msg ("No profiles in registry".take 3) }
  | .result (some bm) bs sorted =>
    { identified := true, user_id := some bm.user_id
    , user_name := some bm.user_name, score := bs
    , ranking := .scores (sorted.take 5) }
  | .result none bs sorted =>
    { identified := false, user_id := none, user_name := none, score := bs
    , ranking := .scores (sorted.take 3) }

/-- The `/identify_voice` endpoint after embedding extraction: runs the
matcher over the loaded registry and assembles the response; `none` is an
uncaught matcher exception surfaced as the 500 handler. -/
noncomputable def identify_endpoint (probe : Vec) (store : Store)
    (threshold : ℝ) : Option IdentifyResponse :=
  (identify_speaker probe (load_all_profiles store) threshold).map
    identify_voice_response

/-- Failure modes of `DELETE /voice_registry/{user_id}`: the 404 when the
file is absent, and the generic 500 `"Failed to delete voice profile"`
when the pre-delete `json.load` of the record raises. -/
inductive DeleteError where
  | notFound
  | loadFailed
deriving DecidableEq

/-- `delete_voice(user_id)`: 404 if `{user_id}.json` does not exist;
otherwise the profile is loaded (to name it in the success message) and
only then removed, so an unparseable record fails with the generic 500 and
is not removed. Returns the outcome (carrying the deleted profile's name)
together with the resulting store. -/
def delete_voice (user_id : String) (store : Store) :
    Except DeleteError String × Store :=
  match readRecord store user_id with
  | none => (.error .notFound, store)
  | some .corrupt => (.error .loadFailed, store)
  | some (.good p) => (.ok p.user_name, removeRecord store user_id)

/-- Failure modes of the spec-level single-profile read. -/
inductive GetError where
  | notFound
  | corruption
deriving DecidableEq

/-- Modelled from the spec: the repository exposes no single-profile read
endpoint, only listing and deletion, so §4.3's `get(user_id)` is taken
from its words: "fails with `NotFound` if absent", and a persisted but
unreadable record is "fatal at the single-get level (`NotFound`-equivalent
or explicit corruption signal)". -/
def get_profile (store : Store) (user_id : String) : Except GetError Profile :=
  match readRecord store user_id with
  | none => .error .notFound
  | some .corrupt => .error .corruption
  | some (.good p) => .ok p

/-- Python's `max` over a list, totalized with a junk value on the empty
list (where Python raises); used only to state properties of nonempty
rankings. -/
noncomputable def maxD : List ℝ → ℝ
  | [] => 0
  | x :: xs => xs.foldl max x

/-- The score the matcher assigns to a profile, as a total function of the
probe: max of the centroid similarity and the per-phrase maximum. Agrees
with the loop body of `identify_speaker` on every profile with at least
one phrase embedding. -/
noncomputable def profileScore (probe : Vec) (p : Profile) : ℝ :=
  max (cosineSim probe p.voice_embedding)
    (maxD (p.phrase_embeddings.map (cosineSim probe)))

/-- Totalized `mkEntry`; agrees with it on profiles with at least one
phrase embedding. -/
noncomputable def entryOf (probe : Vec) (p : Profile) : ScoreEntry :=
  { user_id := p.user_id
  , user_name := p.user_name
  , score := profileScore probe p
  , centroid_similarity := cosineSim probe p.voice_embedding
  , max_phrase_similarity := maxD (p.phrase_embeddings.map (cosineSim probe)) }

/-- Python's `min` over a list, totalized with a junk value on the empty
list (where Python raises); on `s :: ss` it is exactly the
`min_consistency` fold of `create_voice_profile`. -/
noncomputable def minD : List ℝ → ℝ
  | [] => 0
  | x :: xs => xs.foldl min x

lemma foldl_min_le_init (l : List ℝ) (a : ℝ) : l.foldl min a ≤ a := by
  induction l generalizing a with
  | nil => exact le_refl a
  | cons x xs ih => exact le_trans (ih (min a x)) (min_le_left a x)

lemma foldl_min_le_mem (l : List ℝ) (a : ℝ) {x : ℝ} (hx : x ∈ l) :
    l.foldl min a ≤ x := by
  induction l generalizing a with
  | nil => cases hx
  | cons y ys ih =>
    rcases List.mem_cons.mp hx with h | h
    · subst h
      exact le_trans (foldl_min_le_init ys (min a x)) (min_le_right a x)
    · exact ih (min a y) h

lemma foldl_min_eq_or_mem (l : List ℝ) (a : ℝ) :
    l.foldl min a = a ∨ l.foldl min a ∈ l := by
  induction l generalizing a with
  | nil => exact Or.inl rfl
  | cons y ys ih =>
    rcases ih (min a y) with h | h
    · rcases le_total a y with hay | hya
      · left
        rw [List.foldl_cons, h, min_eq_left hay]
      · right
        rw [List.foldl_cons, h, min_eq_right hya]
        exact List.mem_cons_self y ys
    · exact Or.inr (List.mem_cons_of_mem y h)

lemma le_foldl_min {c a : ℝ} {l : List ℝ} (ha : c ≤ a) (h : ∀ x ∈ l, c ≤ x) :
    c ≤ l.foldl min a := by
  rcases foldl_min_eq_or_mem l a with he | hm
  · rw [he]; exact ha
  · exact h _ hm

lemma init_le_foldl_max (l : List ℝ) (a : ℝ) : a ≤ l.foldl max a := by
  induction l generalizing a with
  | nil => exact le_refl a
  | cons x xs ih => exact le_trans (le_max_left a x) (ih (max a x))

lemma mem_le_foldl_max (l : List ℝ) (a : ℝ) {x : ℝ} (hx : x ∈ l) :
    x ≤ l.foldl max a := by
  induction l generalizing a with
  | nil => cases hx
  | cons y ys ih =>
    rcases List.mem_cons.mp hx with h | h
    · subst h
      exact le_trans (le_max_right a x) (init_le_foldl_max ys (max a x))
    · exact ih (max a y) h

lemma foldl_max_eq_or_mem (l : List ℝ) (a : ℝ) :
    l.foldl max a = a ∨ l.foldl max a ∈ l := by
  induction l generalizing a with
  | nil => exact Or.inl rfl
  | cons y ys ih =>
    rcases ih (max a y) with h | h
    · rcases le_total a y with hay | hya
      · right
        rw [List.foldl_cons, h, max_eq_right hay]
        exact List.mem_cons_self y ys
      · left
        rw [List.foldl_cons, h, max_eq_left hya]
    · exact Or.inr (List.mem_cons_of_mem y h)

lemma foldl_max_le {c a : ℝ} {l : List ℝ} (ha : a ≤ c) (h : ∀ x ∈ l, x ≤ c) :
    l.foldl max a ≤ c := by
  rcases foldl_max_eq_or_mem l a with he | hm
  · rw [he]; exact ha
  · exact h _ hm

lemma dot_nil_right (a : Vec) : dot a [] = 0 := by
  cases a <;> simp [dot]

lemma dot_comm (a b : Vec) : dot a b = dot b a := by
  induction a generalizing b with
  | nil => simp [dot, dot_nil_right]
  | cons x xs ih =>
    cases b with
    | nil => simp [dot, dot_nil_right]
    | cons y ys => simp [dot, List.sum_cons] at ih ⊢; rw [mul_comm, ih]

lemma dot_self_nonneg (a : Vec) : 0 ≤ dot a a := by
  induction a with
  | nil => simp [dot]
  | cons x xs ih =>
    have : dot (x :: xs) (x :: xs) = x * x + dot xs xs := by simp [dot]
    rw [this]
    exact add_nonneg (mul_self_nonneg x) ih

lemma dot_eq_zero_of_self_zero {a : Vec} (h : dot a a = 0) (b : Vec) :
    dot a b = 0 := by
  induction a generalizing b with
  | nil => simp [dot]
  | cons x xs ih =>
    have hsplit : dot (x :: xs) (x :: xs) = x * x + dot xs xs := by simp [dot]
    rw [hsplit] at h
    have hx2 : x * x = 0 := by
      have h1 := mul_self_nonneg x
      have h2 := dot_self_nonneg xs
      linarith
    have hx : x = 0 := by
      exact mul_self_eq_zero.mp hx2
    have hxs : dot xs xs = 0 := by linarith [mul_self_nonneg x]
    cases b with
    | nil => exact dot_nil_right _
    | cons y ys =>
      have : dot (x :: xs) (y :: ys) = x * y + dot xs ys := by simp [dot]
      rw [this, hx, ih hxs ys]
      ring

lemma vadd_length {a b : Vec} (h : a.length = b.length) :
    (vadd a b).length = a.length := by
  simp [vadd, h]

lemma dot_vadd_left (a b c : Vec) (h : a.length = b.length) :
    dot (vadd a b) c = dot a c + dot b c := by
  induction a generalizing b c with
  | nil =>
    have : b = [] := by
      cases b with
      | nil => rfl
      | cons y ys => simp at h
    subst this
    simp [dot, vadd]
  | cons x xs ih =>
    cases b with
    | nil => simp at h
    | cons y ys =>
      cases c with
      | nil => simp [dot_nil_right]
      | cons z zs =>
        have hlen : xs.length = ys.length := by simpa using h
        have h1 : dot (vadd (x :: xs) (y :: ys)) (z :: zs)
            = (x + y) * z + dot (vadd xs ys) zs := by simp [dot, vadd]
        have h2 : dot (x :: xs) (z :: zs) = x * z + dot xs zs := by simp [dot]
        have h3 : dot (y :: ys) (z :: zs) = y * z + dot ys zs := by simp [dot]
        rw [h1, h2, h3, ih ys zs hlen]
        ring

lemma dot_vadd_right (a b c : Vec) (h : b.length = c.length) :
    dot a (vadd b c) = dot a b + dot a c := by
  rw [dot_comm, dot_vadd_left b c a h, dot_comm b a, dot_comm c a]

lemma dot_map_div (a b : Vec) (c : ℝ) :
    dot (a.map (· / c)) (b.map (· / c)) = dot a b / (c * c) := by
  induction a generalizing b with
  | nil => simp [dot]
  | cons x xs ih =>
    cases b with
    | nil => simp [dot_nil_right, dot, List.map_nil]
    | cons y ys =>
      have h1 : dot ((x :: xs).map (· / c)) ((y :: ys).map (· / c))
          = (x / c) * (y / c) + dot (xs.map (· / c)) (ys.map (· / c)) := by
        simp [dot]
      have h2 : dot (x :: xs) (y :: ys) = x * y + dot xs ys := by simp [dot]
      rw [h1, ih ys, div_mul_div_comm, div_add_div_same, h2]

lemma norm2_nonneg (a : Vec) : 0 ≤ norm2 a := Real.sqrt_nonneg _

lemma norm2_mul_self (a : Vec) : norm2 a * norm2 a = dot a a :=
  Real.mul_self_sqrt (dot_self_nonneg a)

lemma norm2_pos_of_dot_pos {a : Vec} (h : 0 < dot a a) : 0 < norm2 a :=
  Real.sqrt_pos.mpr h

lemma dot_pos_of_norm2_pos {a : Vec} (h : 0 < norm2 a) : 0 < dot a a :=
  Real.sqrt_pos.mp h

lemma norm2_normalize {v : Vec} (h : 0 < norm2 v) : norm2 (normalize v) = 1 := by
  have hdot : 0 < dot v v := dot_pos_of_norm2_pos h
  have hmap : dot (normalize v) (normalize v) = dot v v / (norm2 v * norm2 v) :=
    dot_map_div v v (norm2 v)
  rw [norm2, hmap, norm2_mul_self, div_self (ne_of_gt hdot), Real.sqrt_one]

lemma cosineSim_bounds {a b : Vec} (h : (7 : ℝ) / 10 ≤ cosineSim a b) :
    0 < dot a b ∧ 0 < dot a a ∧ 0 < dot b b := by
  have hne : norm2 a * norm2 b ≠ 0 := by
    intro h0
    rw [cosineSim, h0, div_zero] at h
    linarith
  have hna : 0 < norm2 a := by
    rcases lt_or_eq_of_le (norm2_nonneg a) with h' | h'
    · exact h'
    · exact absurd (by rw [← h', zero_mul]) hne
  have hnb : 0 < norm2 b := by
    rcases lt_or_eq_of_le (norm2_nonneg b) with h' | h'
    · exact h'
    · exact absurd (by rw [← h', mul_zero]) hne
  refine ⟨?_, ?_, ?_⟩
  · have hd : dot a b = cosineSim a b * (norm2 a * norm2 b) := by
      rw [cosineSim, div_mul_cancel₀ _ hne]
    rw [hd]
    have : (0 : ℝ) < norm2 a * norm2 b := mul_pos hna hnb
    nlinarith
  · rw [← norm2_mul_self]; exact mul_pos hna hna
  · rw [← norm2_mul_self]; exact mul_pos hnb hnb

lemma cosineSim_self_of_unit {v : Vec} (h : norm2 v = 1) : cosineSim v v = 1 := by
  have hd : dot v v = 1 := by rw [← norm2_mul_self, h, mul_one]
  rw [cosineSim, hd, h, mul_one, div_one]

lemma pairwiseSims_ne_nil {es : List Vec} (h : 2 ≤ es.length) :
    pairwiseSims es ≠ [] := by
  match es, h with
  | a :: b :: t, _ => simp [pairwiseSims]

lemma pairwiseSims_mem_pair {es : List Vec} {m : ℝ} (hm : m ∈ pairwiseSims es) :
    ∃ a ∈ es, ∃ b ∈ es, m = cosineSim a b := by
  induction es with
  | nil => cases hm
  | cons e t ih =>
    rcases List.mem_append.mp hm with h | h
    · rcases List.mem_map.mp h with ⟨b, hb, hcb⟩
      exact ⟨e, List.mem_cons_self e t, b, List.mem_cons_of_mem e hb, hcb.symm⟩
    · rcases ih h with ⟨a, ha, b, hb, hab⟩
      exact ⟨a, List.mem_cons_of_mem e ha, b, List.mem_cons_of_mem e hb, hab⟩

lemma pairwiseSims_two_mul_length (es : List Vec) :
    2 * (pairwiseSims es).length = es.length * (es.length - 1) := by
  induction es with
  | nil => simp [pairwiseSims]
  | cons e t ih =>
    have hlen : (pairwiseSims (e :: t)).length
        = t.length + (pairwiseSims t).length := by
      simp [pairwiseSims]
    rw [hlen, List.length_cons, Nat.add_sub_cancel, Nat.mul_comm]
    cases t with
    | nil =>
      simp [pairwiseSims] at ih ⊢
    | cons b t' =>
      have h1 : (b :: t').length = t'.length + 1 := by simp
      rw [h1] at ih ⊢
      rw [Nat.add_sub_cancel] at ih
      nlinarith [ih]

lemma pairwiseSims_cover {es : List Vec} {v w : Vec}
    (hv : v ∈ es) (hw : w ∈ es) :
    v = w ∨ cosineSim v w ∈ pairwiseSims es ∨ cosineSim w v ∈ pairwiseSims es := by
  induction es with
  | nil => cases hv
  | cons e t ih =>
    rcases List.mem_cons.mp hv with hv' | hv'
    · rcases List.mem_cons.mp hw with hw' | hw'
      · exact Or.inl (hv'.trans hw'.symm)
      · subst hv'
        refine Or.inr (Or.inl ?_)
        exact List.mem_append_left _ (List.mem_map_of_mem _ hw')
    · rcases List.mem_cons.mp hw with hw' | hw'
      · subst hw'
        refine Or.inr (Or.inr ?_)
        exact List.mem_append_left _ (List.mem_map_of_mem _ hv')
      · rcases ih hv' hw' with h | h | h
        · exact Or.inl h
        · exact Or.inr (Or.inl (List.mem_append_right _ h))
        · exact Or.inr (Or.inr (List.mem_append_right _ h))

lemma pairwiseSims_cover_self {es : List Vec} {v : Vec}
    (hv : v ∈ es) (h2 : 2 ≤ es.length) :
    ∃ w ∈ es, cosineSim v w ∈ pairwiseSims es ∨ cosineSim w v ∈ pairwiseSims es := by
  cases es with
  | nil => simp at h2
  | cons a rest =>
    cases rest with
    | nil => simp at h2
    | cons b t =>
      rcases List.mem_cons.mp hv with hv' | hv'
      · subst hv'
        refine ⟨b, List.mem_cons_of_mem v (List.mem_cons_self b t), Or.inl ?_⟩
        exact List.mem_append_left _
          (List.mem_map_of_mem _ (List.mem_cons_self b t))
      · refine ⟨a, List.mem_cons_self a (b :: t), Or.inr ?_⟩
        exact List.mem_append_left _ (List.mem_map_of_mem _ hv')

lemma dot_pairs_pos {es : List Vec} (h2 : 2 ≤ es.length)
    (hpass : ∀ m ∈ pairwiseSims es, (7 : ℝ) / 10 ≤ m) :
    ∀ v ∈ es, ∀ w ∈ es, 0 < dot v w := by
  intro v hv w hw
  rcases pairwiseSims_cover hv hw with heq | hm | hm
  · subst heq
    rcases pairwiseSims_cover_self hv h2 with ⟨u, _, hu | hu⟩
    · exact (cosineSim_bounds (hpass _ hu)).2.1
    · exact (cosineSim_bounds (hpass _ hu)).2.2
  · exact (cosineSim_bounds (hpass _ hm)).1
  · rw [dot_comm]
    exact (cosineSim_bounds (hpass _ hm)).1

lemma foldl_vadd_length {d : ℕ} :
    ∀ (rest : List Vec) (S : Vec), S.length = d → (∀ v ∈ rest, v.length = d) →
      (rest.foldl vadd S).length = d := by
  intro rest
  induction rest with
  | nil => intro S hS _; exact hS
  | cons w t ih =>
    intro S hS hall
    have hw : w.length = d := hall w (List.mem_cons_self w t)
    have hS' : (vadd S w).length = d := by
      rw [vadd_length (hS.trans hw.symm)]; exact hS
    exact ih (vadd S w) hS' (fun v hv => hall v (List.mem_cons_of_mem w hv))

lemma foldl_vadd_dot_pos {d : ℕ} :
    ∀ (rest : List Vec) (S : Vec), S.length = d → (∀ v ∈ rest, v.length = d) →
      0 < dot S S → (∀ v ∈ rest, 0 < dot S v) →
      (∀ v ∈ rest, ∀ w ∈ rest, 0 < dot v w) →
      0 < dot (rest.foldl vadd S) (rest.foldl vadd S) := by
  intro rest
  induction rest with
  | nil => intro S _ _ hSS _ _; exact hSS
  | cons w t ih =>
    intro S hS hall hSS hpos hpair
    have hw : w.length = d := hall w (List.mem_cons_self w t)
    have hlen : S.length = w.length := hS.trans hw.symm
    have hS' : (vadd S w).length = d := by rw [vadd_length hlen]; exact hS
    have hsplit : dot (vadd S w) (vadd S w)
        = dot S S + dot S w + (dot w S + dot w w) := by
      rw [dot_vadd_left S w (vadd S w) hlen,
          dot_vadd_right S S w hlen, dot_vadd_right w S w hlen]
    have hSw : 0 < dot S w := hpos w (List.mem_cons_self w t)
    have hwS : 0 < dot w S := by rw [dot_comm]; exact hSw
    have hww : 0 < dot w w :=
      hpair w (List.mem_cons_self w t) w (List.mem_cons_self w t)
    have hSS' : 0 < dot (vadd S w) (vadd S w) := by rw [hsplit]; linarith
    refine ih (vadd S w) hS' (fun v hv => hall v (List.mem_cons_of_mem w hv))
      hSS' ?_ ?_
    · intro v hv
      have hvlen : S.length = w.length := hlen
      rw [dot_vadd_left S w v hvlen]
      have h1 : 0 < dot S v := hpos v (List.mem_cons_of_mem w hv)
      have h2 : 0 < dot w v :=
        hpair w (List.mem_cons_self w t) v (List.mem_cons_of_mem w hv)
      linarith
    · intro v hv u hu
      exact hpair v (List.mem_cons_of_mem w hv) u (List.mem_cons_of_mem w hu)

lemma dot_vecMean_pos {es : List Vec} {d : ℕ} (h2 : 2 ≤ es.length)
    (hd : ∀ e ∈ es, e.length = d)
    (hpair : ∀ v ∈ es, ∀ w ∈ es, 0 < dot v w) :
    0 < dot (vecMean es) (vecMean es) := by
  match es, h2 with
  | e :: rest, _ =>
    have hmean : vecMean (e :: rest)
        = (rest.foldl vadd e).map (· / ((rest.length + 1 : ℕ) : ℝ)) := rfl
    have hSpos : 0 < dot (rest.foldl vadd e) (rest.foldl vadd e) := by
      refine foldl_vadd_dot_pos rest e
        (hd e (List.mem_cons_self e rest))
        (fun v hv => hd v (List.mem_cons_of_mem e hv))
        (hpair e (List.mem_cons_self e rest) e (List.mem_cons_self e rest))
        (fun v hv => hpair e (List.mem_cons_self e rest) v
          (List.mem_cons_of_mem e hv))
        (fun v hv u hu => hpair v (List.mem_cons_of_mem e hv) u
          (List.mem_cons_of_mem e hu))
    rw [hmean, dot_map_div]
    have hn : (0 : ℝ) < ((rest.length + 1 : ℕ) : ℝ) := by positivity
    exact div_pos hSpos (mul_pos hn hn)

lemma centroid_unit {es : List Vec} {d : ℕ} (h2 : 2 ≤ es.length)
    (hd : ∀ e ∈ es, e.length = d)
    (hpass : ∀ m ∈ pairwiseSims es, (7 : ℝ) / 10 ≤ m) :
    norm2 (normalize (vecMean es)) = 1 :=
  norm2_normalize (norm2_pos_of_dot_pos
    (dot_vecMean_pos h2 hd (dot_pairs_pos h2 hpass)))

lemma vecMean_cons (e : Vec) (rest : List Vec) :
    vecMean (e :: rest)
      = (rest.foldl vadd e).map (· / ((rest.length + 1 : ℕ) : ℝ)) := rfl

lemma minD_mem {s : ℝ} {ss : List ℝ} : minD (s :: ss) ∈ s :: ss := by
  rcases foldl_min_eq_or_mem ss s with h | h
  · rw [minD, h]; exact List.mem_cons_self _ _
  · exact List.mem_cons_of_mem _ (by rw [minD]; exact h)

lemma minD_le_mem {s m : ℝ} {ss : List ℝ} (hm : m ∈ s :: ss) :
    minD (s :: ss) ≤ m := by
  rcases List.mem_cons.mp hm with h | h
  · rw [h, minD]; exact foldl_min_le_init ss s
  · rw [minD]; exact foldl_min_le_mem ss s h

lemma create_spec {es : List Vec} {name : String} {idx : List ℕ}
    {uid : String} {ts : ℝ} (h2 : 2 ≤ es.length)
    (hidx : idx.all (· < ENROLLMENT_PHRASES.length) = true)
    (hpass : ∀ m ∈ pairwiseSims es, (7 : ℝ) / 10 ≤ m) :
    create_voice_profile es name idx uid ts = Except.ok
      { user_id := uid, user_name := name
      , voice_embedding := normalize (vecMean es)
      , phrase_embeddings := es, phrase_indices := idx
      , phrases_used := idx.map (fun i => ENROLLMENT_PHRASES.getD i "")
      , consistency_score := (pairwiseSims es).sum / ((pairwiseSims es).length : ℝ)
      , min_consistency := minD (pairwiseSims es)
      , enrollment_timestamp := ts
      , embedding_dim := (normalize (vecMean es)).length } := by
  obtain ⟨s, ss, hps⟩ := List.exists_cons_of_ne_nil (pairwiseSims_ne_nil h2)
  have hge : (7 : ℝ) / 10 ≤ minD (s :: ss) := hpass _ (hps ▸ minD_mem)
  have hnotlt : ¬ (ss.foldl min s < 7 / 10) := by
    rw [minD] at hge; exact not_lt.mpr hge
  rw [create_voice_profile, hps]
  simp only [if_neg hnotlt, if_pos hidx, minD]

lemma create_inconsistent_iff {es : List Vec} {name : String} {idx : List ℕ}
    {uid : String} {ts : ℝ} (h2 : 2 ≤ es.length) :
    create_voice_profile es name idx uid ts = Except.error CreateError.inconsistent
      ↔ ∃ m ∈ pairwiseSims es, m < 7 / 10 := by
  obtain ⟨s, ss, hps⟩ := List.exists_cons_of_ne_nil (pairwiseSims_ne_nil h2)
  by_cases hlt : ss.foldl min s < 7 / 10
  · constructor
    · intro _
      exact ⟨ss.foldl min s, hps ▸ (by rw [← minD]; exact minD_mem), hlt⟩
    · intro _
      rw [create_voice_profile, hps]
      simp only [if_pos hlt]
  · constructor
    · intro h
      exfalso
      rw [create_voice_profile, hps] at h
      simp only [if_neg hlt] at h
      by_cases hi : idx.all (· < ENROLLMENT_PHRASES.length) = true
      · rw [if_pos hi] at h
        exact Except.noConfusion h
      · rw [if_neg hi] at h
        have := Except.error.inj h
        exact CreateError.noConfusion this
    · rintro ⟨m, hm, hmlt⟩
      exfalso
      exact hlt (lt_of_le_of_lt
        (by rw [← minD]; exact minD_le_mem (hps ▸ hm)) hmlt)

lemma register_voice_error_store {name : String} {idx : List ℕ}
    {es : List Vec} {uid : String} {ts : ℝ} {store : Store} {e : RegError}
    (h : (register_voice name idx es uid ts store).1 = .error e) :
    (register_voice name idx es uid ts store).2 = store := by
  rw [register_voice] at h ⊢
  split_ifs at h ⊢ <;> try rfl
  cases hc : create_voice_profile es name idx uid ts with
  | error ce => rfl
  | ok p =>
    rw [hc] at h
    simp at h

lemma vadd_map_succ (v : Vec) (c : ℝ) :
    vadd (v.map (fun x => c * x)) v = v.map (fun x => (c + 1) * x) := by
  induction v with
  | nil => rfl
  | cons x xs ih =>
    have h1 : vadd ((x :: xs).map (fun x => c * x)) (x :: xs)
        = (c * x + x) :: vadd (xs.map (fun x => c * x)) xs := by
      simp [vadd]
    rw [h1, ih, List.map_cons]
    congr 1
    ring

lemma foldl_vadd_replicate (v : Vec) :
    ∀ (k : ℕ) (c : ℝ), (List.replicate k v).foldl vadd (v.map (fun x => c * x))
      = v.map (fun x => (c + (k : ℝ)) * x) := by
  intro k
  induction k with
  | zero => intro c; simp
  | succ m ih =>
    intro c
    have h1 : List.replicate (m + 1) v = v :: List.replicate m v := rfl
    rw [h1, List.foldl_cons, vadd_map_succ, ih (c + 1)]
    have hf : (fun x => (c + 1 + (m : ℝ)) * x)
        = (fun x => (c + ((m + 1 : ℕ) : ℝ)) * x) := by
      funext x
      push_cast
      ring
    rw [hf]

lemma vecMean_replicate {v : Vec} {n : ℕ} (h : 1 ≤ n) :
    vecMean (List.replicate n v) = v := by
  obtain ⟨m, rfl⟩ : ∃ m, n = m + 1 := ⟨n - 1, (Nat.succ_pred_eq_of_pos h).symm⟩
  have h1 : List.replicate (m + 1) v = v :: List.replicate m v := rfl
  have hv1 : v.map (fun x => (1 : ℝ) * x) = v := by simp
  have h2 : (List.replicate m v).foldl vadd v = v.map (fun x => (1 + (m : ℝ)) * x) := by
    have h3 := foldl_vadd_replicate v m 1
    rwa [hv1] at h3
  have hlen : (List.replicate m v).length = m := List.length_replicate m v
  rw [h1, vecMean_cons]
  simp only [h2, hlen, List.map_map]
  have hne : ((m + 1 : ℕ) : ℝ) ≠ 0 := by positivity
  have hfun : ∀ x ∈ v, ((fun x => x / ((m + 1 : ℕ) : ℝ))
      ∘ (fun x => (1 + (m : ℝ)) * x)) x = id x := by
    intro x _
    simp only [Function.comp_apply, id]
    rw [div_eq_iff hne]
    push_cast
    ring
  rw [List.map_congr_left hfun, List.map_id]

lemma list_sum_const {l : List ℝ} {c : ℝ} (h : ∀ x ∈ l, x = c) :
    l.sum = (l.length : ℝ) * c := by
  induction l with
  | nil => simp
  | cons x xs ih =>
    have hx : x = c := h x (List.mem_cons_self x xs)
    have hxs : xs.sum = (xs.length : ℝ) * c :=
      ih (fun y hy => h y (List.mem_cons_of_mem x hy))
    rw [List.sum_cons, hx, hxs, List.length_cons]
    push_cast
    ring

lemma minD_const {s : ℝ} {ss : List ℝ} {c : ℝ} (h : ∀ x ∈ s :: ss, x = c) :
    minD (s :: ss) = c := by
  have hs : s = c := h s (List.mem_cons_self s ss)
  have h1 : minD (s :: ss) ≤ c :=
    le_of_le_of_eq (minD_le_mem (List.mem_cons_self s ss)) hs
  have h2 : c ≤ minD (s :: ss) := by
    rw [minD]
    refine le_foldl_min (le_of_eq hs.symm) ?_
    intro x hx
    exact le_of_eq (h x (List.mem_cons_of_mem s hx)).symm
  linarith

lemma maxD_ge_mem {l : List ℝ} {x : ℝ} (hx : x ∈ l) : x ≤ maxD l := by
  cases l with
  | nil => cases hx
  | cons s ss =>
    rcases List.mem_cons.mp hx with h | h
    · rw [h, maxD]; exact init_le_foldl_max ss s
    · rw [maxD]; exact mem_le_foldl_max ss s h

lemma maxD_mem {s : ℝ} {ss : List ℝ} : maxD (s :: ss) ∈ s :: ss := by
  rcases foldl_max_eq_or_mem ss s with h | h
  · rw [maxD, h]; exact List.mem_cons_self _ _
  · exact List.mem_cons_of_mem _ (by rw [maxD]; exact h)

lemma mkEntry_eq_entryOf {probe : Vec} {p : Profile}
    (h : p.phrase_embeddings ≠ []) : mkEntry probe p = some (entryOf probe p) := by
  obtain ⟨e, rest, hp⟩ := List.exists_cons_of_ne_nil h
  rw [mkEntry, entryOf, hp]
  simp only [List.map_cons, profileScore, maxD, hp]

lemma entriesOf_eq {probe : Vec} {profiles : List Profile}
    (h : ∀ p ∈ profiles, p.phrase_embeddings ≠ []) :
    entriesOf probe profiles = some (profiles.map (entryOf probe)) := by
  induction profiles with
  | nil => rfl
  | cons p rest ih =>
    rw [entriesOf, mkEntry_eq_entryOf (h p (List.mem_cons_self p rest)),
      ih (fun q hq => h q (List.mem_cons_of_mem p hq))]
    rfl

lemma foldl_max_max (a : ℝ) : ∀ (l : List ℝ) (b : ℝ),
    l.foldl max (max a b) = max a (l.foldl max b) := by
  intro l
  induction l with
  | nil => intro b; rfl
  | cons y ys ih =>
    intro b
    rw [List.foldl_cons, List.foldl_cons, max_assoc, ih (max b y)]

lemma bestFold_snd (l : List (Profile × ℝ)) :
    (bestFold l).2 = (l.map Prod.snd).foldl max 0 := by
  rw [bestFold]
  have hgen : ∀ (l : List (Profile × ℝ)) (bm : Option Profile) (bs : ℝ),
      (l.foldl (fun acc pr => if pr.2 > acc.2 then (some pr.1, pr.2) else acc)
        (bm, bs)).2 = (l.map Prod.snd).foldl max bs := by
    intro l
    induction l with
    | nil => intro bm bs; rfl
    | cons pr t ih =>
      intro bm bs
      rw [List.foldl_cons, List.map_cons, List.foldl_cons]
      by_cases hgt : pr.2 > bs
      · rw [if_pos hgt, ih, max_eq_right (le_of_lt hgt)]
      · rw [if_neg hgt, ih, max_eq_left (le_of_not_lt hgt)]
  exact hgen l none 0

lemma bestFold_fst_spec : ∀ (l : List (Profile × ℝ)) (bm : Option Profile) (bs : ℝ),
    l.foldl (fun acc pr => if pr.2 > acc.2 then (some pr.1, pr.2) else acc)
      (bm, bs) = (bm, bs)
    ∨ ∃ pr ∈ l,
        (l.foldl (fun acc pr => if pr.2 > acc.2 then (some pr.1, pr.2) else acc)
          (bm, bs)).1 = some pr.1
        ∧ (l.foldl (fun acc pr => if pr.2 > acc.2 then (some pr.1, pr.2) else acc)
          (bm, bs)).2 = pr.2 := by
  intro l
  induction l with
  | nil => intro bm bs; exact Or.inl rfl
  | cons q t ih =>
    intro bm bs
    rw [List.foldl_cons]
    by_cases hgt : q.2 > bs
    · rw [if_pos hgt]
      rcases ih (some q.1) q.2 with h | ⟨pr, hpr, h1, h2⟩
      · right
        exact ⟨q, List.mem_cons_self q t, by rw [h], by rw [h]⟩
      · right
        exact ⟨pr, List.mem_cons_of_mem q hpr, h1, h2⟩
    · rw [if_neg hgt]
      rcases ih bm bs with h | ⟨pr, hpr, h1, h2⟩
      · exact Or.inl h
      · right
        exact ⟨pr, List.mem_cons_of_mem q hpr, h1, h2⟩

lemma zip_map_self (f : Profile → ℝ) (l : List Profile) :
    l.zip (l.map f) = l.map (fun p => (p, f p)) := by
  induction l with
  | nil => rfl
  | cons p t ih => simp [List.zip_cons_cons, ih]

/-- The sorted ranking of `identify_speaker`, as a function of the loaded
profiles. -/
noncomputable def sortedEntries (probe : Vec) (profiles : List Profile) :
    List ScoreEntry :=
  (profiles.map (entryOf probe)).mergeSort (fun a b => decide (b.score ≤ a.score))

/-- Best score over the loaded profiles as the matcher's fold computes it:
the maximum of 0.0 (the loop's initial `best_score`) and all final
scores. -/
noncomputable def loopBestScore (probe : Vec) (profiles : List Profile) : ℝ :=
  (profiles.map (profileScore probe)).foldl max 0

lemma entry_scores_map (probe : Vec) (profiles : List Profile) :
    (profiles.map (entryOf probe)).map (fun e => e.score)
      = profiles.map (profileScore probe) := by
  rw [List.map_map]
  rfl

lemma bestFold_on_profiles (probe : Vec) (profiles : List Profile) :
    (bestFold (profiles.zip ((profiles.map (entryOf probe)).map
      (fun e => e.score)))).2 = loopBestScore probe profiles := by
  rw [entry_scores_map, zip_map_self, bestFold_snd, List.map_map, loopBestScore]
  rfl

lemma bestFold_fst_on_profiles {probe : Vec} {profiles : List Profile}
    (hpos : 0 < loopBestScore probe profiles) :
    ∃ p ∈ profiles,
      (bestFold (profiles.zip ((profiles.map (entryOf probe)).map
        (fun e => e.score)))).1 = some p
      ∧ profileScore probe p = loopBestScore probe profiles := by
  have hsnd := bestFold_on_profiles probe profiles
  rw [entry_scores_map, zip_map_self] at hsnd ⊢
  rw [bestFold] at hsnd ⊢
  rcases bestFold_fst_spec
      (profiles.map (fun p => (p, profileScore probe p))) none 0 with h | h
  · rw [h] at hsnd
    exact absurd hsnd (by simpa using ne_of_lt hpos)
  · rcases h with ⟨pr, hpr, h1, h2⟩
    rcases List.mem_map.mp hpr with ⟨p, hp, hpeq⟩
    refine ⟨p, hp, ?_, ?_⟩
    · rw [h1, ← hpeq]
    · rw [← hsnd, h2, ← hpeq]

lemma identify_speaker_eq {probe : Vec} {profiles : List Profile} {threshold : ℝ}
    (hne : profiles ≠ []) (hph : ∀ p ∈ profiles, p.phrase_embeddings ≠ []) :
    identify_speaker probe profiles threshold = some (MatchOut.result
      (if threshold ≤ loopBestScore probe profiles
        then (bestFold (profiles.zip ((profiles.map (entryOf probe)).map
          (fun e => e.score)))).1
        else none)
      (loopBestScore probe profiles)
      (sortedEntries probe profiles)) := by
  have hred : identify_speaker probe profiles threshold =
      (if (bestFold (profiles.zip ((profiles.map (entryOf probe)).map
          (fun e => e.score)))).2 ≥ threshold
       then some (MatchOut.result
         (bestFold (profiles.zip ((profiles.map (entryOf probe)).map
           (fun e => e.score)))).1
         (bestFold (profiles.zip ((profiles.map (entryOf probe)).map
           (fun e => e.score)))).2
         (sortedEntries probe profiles))
       else some (MatchOut.result none
         (bestFold (profiles.zip ((profiles.map (entryOf probe)).map
           (fun e => e.score)))).2
         (sortedEntries probe profiles))) := by
    rw [identify_speaker, if_neg (by simpa using hne), entriesOf_eq hph]
    rfl
  rw [hred, bestFold_on_profiles]
  simp only [ge_iff_le]
  by_cases hth : threshold ≤ loopBestScore probe profiles
  · rw [if_pos hth, if_pos hth]
  · rw [if_neg hth, if_neg hth]

lemma sortedEntries_perm (probe : Vec) (profiles : List Profile) :
    (sortedEntries probe profiles).Perm (profiles.map (entryOf probe)) :=
  List.mergeSort_perm _ _

lemma sortedEntries_sorted (probe : Vec) (profiles : List Profile) :
    (sortedEntries probe profiles).Pairwise
      (fun a b : ScoreEntry => b.score ≤ a.score) := by
  have h := @List.sorted_mergeSort ScoreEntry
    (fun a b : ScoreEntry => decide (b.score ≤ a.score))
    (fun a b c hab hbc => by
      simp only [decide_eq_true_eq] at hab hbc ⊢
      linarith)
    (fun a b => by simp [le_total])
    (profiles.map (entryOf probe))
  exact h.imp (fun hab => by simpa using hab)

lemma loopBestScore_eq_max (probe : Vec) (profiles : List Profile) :
    loopBestScore probe profiles
      = max 0 (maxD (profiles.map (profileScore probe))) := by
  rw [loopBestScore]
  cases hmap : profiles.map (profileScore probe) with
  | nil => simp [maxD]
  | cons s ss =>
    rw [maxD, List.foldl_cons]
    exact foldl_max_max 0 ss s

lemma profileScore_le_loopBest {probe : Vec} {profiles : List Profile}
    {q : Profile} (hq : q ∈ profiles) :
    profileScore probe q ≤ loopBestScore probe profiles :=
  mem_le_foldl_max _ _ (List.mem_map_of_mem _ hq)

lemma readRecord_removeRecord (store : Store) (k : String) :
    readRecord (removeRecord store k) k = none := by
  induction store with
  | nil => rfl
  | cons e t ih =>
    by_cases h : (e.1 == k) = true
    · simp only [removeRecord, List.filter_cons, h, Bool.not_true] at ih ⊢
      simp only [Bool.false_eq_true, if_false]
      exact ih
    · have hf : (e.1 == k) = false := by simpa using h
      simp only [removeRecord, List.filter_cons, hf, Bool.not_false, if_true,
        readRecord, List.find?_cons] at ih ⊢
      exact ih

lemma load_all_profiles_good (store : Store) (p : Profile) :
    p ∈ load_all_profiles store ↔ ∃ uid, (uid, Record.good p) ∈ store := by
  induction store with
  | nil => simp [load_all_profiles, load_all_profiles_logged]
  | cons e t ih =>
    obtain ⟨k, r⟩ := e
    cases r with
    | good q =>
      rw [load_all_profiles] at ih ⊢
      simp only [load_all_profiles_logged, List.mem_cons]
      constructor
      · rintro (h | h)
        · exact ⟨k, Or.inl (by rw [h])⟩
        · rcases ih.mp h with ⟨uid, hu⟩
          exact ⟨uid, Or.inr hu⟩
      · rintro ⟨uid, hu | hu⟩
        · have h2 : Record.good p = Record.good q := congrArg Prod.snd hu
          exact Or.inl (Record.good.inj h2)
        · exact Or.inr (ih.mpr ⟨uid, hu⟩)
    | corrupt =>
      rw [load_all_profiles] at ih ⊢
      simp only [load_all_profiles_logged, List.mem_cons]
      constructor
      · intro h
        rcases ih.mp h with ⟨uid, hu⟩
        exact ⟨uid, Or.inr hu⟩
      · rintro ⟨uid, hu | hu⟩
        · have h2 : Record.good p = Record.corrupt := congrArg Prod.snd hu
          exact Record.noConfusion h2
        · exact ih.mpr ⟨uid, hu⟩

/-- Whether a record is one `json.load` rejects. -/
def isCorrupt : Record → Bool
  | .good _ => false
  | .corrupt => true

lemma load_all_warnings_count (store : Store) :
    (load_all_profiles_logged store).2.length
      = (store.filter (fun e => isCorrupt e.2)).length := by
  induction store with
  | nil => rfl
  | cons e t ih =>
    obtain ⟨k, r⟩ := e
    cases r with
    | good q =>
      simpa [load_all_profiles_logged, List.filter_cons, isCorrupt] using ih
    | corrupt =>
      simpa [load_all_profiles_logged, List.filter_cons, isCorrupt] using ih

lemma load_all_profiles_append (s₁ s₂ : Store) :
    load_all_profiles (s₁ ++ s₂)
      = load_all_profiles s₁ ++ load_all_profiles s₂ := by
  induction s₁ with
  | nil => rfl
  | cons e t ih =>
    obtain ⟨k, r⟩ := e
    cases r with
    | good q =>
      rw [List.cons_append]
      simp only [load_all_profiles, load_all_profiles_logged] at ih ⊢
      simpa using ih
    | corrupt =>
      rw [List.cons_append]
      simp only [load_all_profiles, load_all_profiles_logged] at ih ⊢
      simpa using ih

lemma norm2_one_vec : norm2 [1] = 1 := by
  simp [norm2, dot]

lemma norm2_two_vec : norm2 [2] = 2 := by
  have h4 : ((2 : ℝ) * 2 + 0) = 4 := by norm_num
  rw [norm2]
  simp only [dot, List.zipWith_cons_cons, List.zipWith_nil_right, List.sum_cons,
    List.sum_nil, h4]
  rw [show (4 : ℝ) = 2 ^ 2 by norm_num, Real.sqrt_sq (by norm_num : (0:ℝ) ≤ 2)]

lemma cosineSim_one_one : cosineSim [1] [1] = 1 :=
  cosineSim_self_of_unit norm2_one_vec

lemma cosineSim_two_two : cosineSim [2] [2] = 1 := by
  rw [cosineSim, norm2_two_vec]
  have hd : dot [2] [2] = 4 := by simp [dot]; norm_num
  rw [hd]
  norm_num

lemma cosineSim_neg_one : cosineSim [-1] [1] = -1 := by
  have hn : norm2 [-1] = 1 := by
    rw [norm2]
    have : dot [-1] [-1] = 1 := by simp [dot]
    rw [this, Real.sqrt_one]
  rw [cosineSim, hn, norm2_one_vec]
  have hd : dot [-1] [1] = -1 := by simp [dot]
  rw [hd]
  norm_num

lemma cosineSim_one_neg : cosineSim [1] [-1] = -1 := by
  have hn : norm2 [-1] = 1 := by
    rw [norm2]
    have : dot [-1] [-1] = 1 := by simp [dot]
    rw [this, Real.sqrt_one]
  rw [cosineSim, hn, norm2_one_vec]
  have hd : dot [1] [-1] = -1 := by simp [dot]
  rw [hd]
  norm_num

/-- Fixture: a well-formed stored profile named Alice, 1-dimensional. -/
def profAlice : Profile :=
  { user_id := "id1", user_name := "Alice"
  , voice_embedding := [1], phrase_embeddings := [[1]]
  , phrase_indices := [0]
  , phrases_used := ["The quick brown fox jumps over the lazy dog"]
  , consistency_score := 1, min_consistency := 1
  , enrollment_timestamp := 0, embedding_dim := 1 }

/-- C1: for every batch of N ≥ 2 enrollment embeddings, profile creation
fails with the inconsistent-voice-samples error exactly when the minimum of
the pairwise cosine similarities is below 0.70 (the list of pairwise
similarities having N·(N−1)/2 entries, so that the minimum is over all
unordered pairs); and an otherwise-valid enrollment call whose batch trips
this check returns the inconsistency error with the store unchanged — no
profile is persisted. -/
theorem c1_consistency_gate :
    (∀ (es : List Vec) (name : String) (idx : List ℕ) (uid : String) (ts : ℝ),
      2 ≤ es.length →
      ((create_voice_profile es name idx uid ts
          = Except.error CreateError.inconsistent
        ↔ minD (pairwiseSims es) < 7 / 10)
       ∧ (minD (pairwiseSims es) < 7 / 10 ↔ ∃ m ∈ pairwiseSims es, m < 7 / 10)))
    ∧ (∀ es : List Vec,
        2 * (pairwiseSims es).length = es.length * (es.length - 1))
    ∧ (∀ (name : String) (idx : List ℕ) (es : List Vec) (uid : String) (ts : ℝ)
        (store : Store),
      es.length = idx.length → REQUIRED_PHRASES ≤ es.length →
      idx.all (· < ENROLLMENT_PHRASES.length) = true →
      ((load_all_profiles store).any
        (fun p => strLower p.user_name == strLower name)) = false →
      (∃ m ∈ pairwiseSims es, m < 7 / 10) →
      register_voice name idx es uid ts store
        = (Except.error (RegError.createFailed CreateError.inconsistent), store)) := by
  refine ⟨?_, pairwiseSims_two_mul_length, ?_⟩
  · intro es name idx uid ts h2
    have hminiff : minD (pairwiseSims es) < 7 / 10
        ↔ ∃ m ∈ pairwiseSims es, m < 7 / 10 := by
      obtain ⟨s, ss, hps⟩ := List.exists_cons_of_ne_nil (pairwiseSims_ne_nil h2)
      constructor
      · intro h
        exact ⟨minD (pairwiseSims es), hps ▸ minD_mem, h⟩
      · rintro ⟨m, hm, hmlt⟩
        exact lt_of_le_of_lt (hps ▸ minD_le_mem (hps ▸ hm)) hmlt
    exact ⟨(create_inconsistent_iff h2).trans hminiff.symm, hminiff⟩
  · intro name idx es uid ts store hlen h5 hidx hdup hex
    have h2 : 2 ≤ es.length :=
      le_trans (by norm_num [REQUIRED_PHRASES]) h5
    rw [register_voice, if_neg (by simp [hlen]), if_neg (not_lt.mpr h5),
      if_neg (by simp [hidx]), if_neg (by simp [hdup]),
      (create_inconsistent_iff h2).mpr hex]

/-- Witness for C1: a two-element batch containing opposite unit vectors,
and a five-sample otherwise-valid enrollment over them against an empty
store. -/
theorem c1_consistency_gate_witness :
    (2 ≤ ([[(1 : ℝ)], [-1]] : List Vec).length
      ∧ ((create_voice_profile [[(1 : ℝ)], [-1]] "speaker" [0, 1, 2, 3, 4] "id0" 0
            = Except.error CreateError.inconsistent
          ↔ minD (pairwiseSims [[(1 : ℝ)], [-1]]) < 7 / 10)
         ∧ (minD (pairwiseSims [[(1 : ℝ)], [-1]]) < 7 / 10
          ↔ ∃ m ∈ pairwiseSims [[(1 : ℝ)], [-1]], m < 7 / 10)))
    ∧ (([[(1 : ℝ)], [1], [1], [1], [-1]] : List Vec).length
          = ([0, 1, 2, 3, 4] : List ℕ).length
       ∧ REQUIRED_PHRASES ≤ ([[(1 : ℝ)], [1], [1], [1], [-1]] : List Vec).length
       ∧ ([0, 1, 2, 3, 4] : List ℕ).all (· < ENROLLMENT_PHRASES.length) = true
       ∧ ((load_all_profiles []).any
            (fun p => strLower p.user_name == strLower "speaker")) = false
       ∧ (∃ m ∈ pairwiseSims [[(1 : ℝ)], [1], [1], [1], [-1]], m < 7 / 10)
       ∧ register_voice "speaker" [0, 1, 2, 3, 4]
            [[(1 : ℝ)], [1], [1], [1], [-1]] "id0" 0 []
          = (Except.error (RegError.createFailed CreateError.inconsistent), [])) := by
  have hmem : ∃ m ∈ pairwiseSims [[(1 : ℝ)], [1], [1], [1], [-1]], m < 7 / 10 := by
    refine ⟨cosineSim [1] [-1], ?_, by rw [cosineSim_one_neg]; norm_num⟩
    simp [pairwiseSims]
  refine ⟨⟨by norm_num, c1_consistency_gate.1 _ "speaker" [0, 1, 2, 3, 4] "id0" 0
    (by norm_num)⟩, rfl, by norm_num [REQUIRED_PHRASES], by decide, rfl, hmem,
    c1_consistency_gate.2.2 "speaker" [0, 1, 2, 3, 4] _ "id0" 0 []
      rfl (by norm_num [REQUIRED_PHRASES]) (by decide) rfl hmem⟩

/-- C2: against any nonempty batch of loaded profiles (each with at least
one phrase embedding, as every enrolled profile has), the matcher's
returned ranking contains exactly one entry per loaded profile, sorted in
descending order of score, where each profile's score is the maximum of
the centroid similarity and every phrase similarity (an upper bound on all
of them that is attained by one of them). -/
theorem c2_scoring_and_ranking :
    ∀ (probe : Vec) (profiles : List Profile) (threshold : ℝ),
      profiles ≠ [] → (∀ p ∈ profiles, p.phrase_embeddings ≠ []) →
      ∃ bm sorted,
        identify_speaker probe profiles threshold
          = some (MatchOut.result bm (loopBestScore probe profiles) sorted)
        ∧ sorted.Perm (profiles.map (entryOf probe))
        ∧ sorted.Pairwise (fun a b : ScoreEntry => b.score ≤ a.score)
        ∧ ∀ p ∈ profiles,
            cosineSim probe p.voice_embedding ≤ (entryOf probe p).score
            ∧ (∀ e ∈ p.phrase_embeddings,
                cosineSim probe e ≤ (entryOf probe p).score)
            ∧ ((entryOf probe p).score = cosineSim probe p.voice_embedding
               ∨ ∃ e ∈ p.phrase_embeddings,
                  (entryOf probe p).score = cosineSim probe e) := by
  intro probe profiles threshold hne hph
  refine ⟨_, sortedEntries probe profiles, identify_speaker_eq hne hph,
    sortedEntries_perm probe profiles, sortedEntries_sorted probe profiles, ?_⟩
  intro p hp
  refine ⟨le_max_left _ _, ?_, ?_⟩
  · intro e he
    exact le_trans (maxD_ge_mem (List.mem_map_of_mem _ he)) (le_max_right _ _)
  · rcases max_choice (cosineSim probe p.voice_embedding)
        (maxD (p.phrase_embeddings.map (cosineSim probe))) with h | h
    · exact Or.inl h
    · right
      have hmm : maxD (p.phrase_embeddings.map (cosineSim probe))
          ∈ p.phrase_embeddings.map (cosineSim probe) := by
        obtain ⟨e0, rest0, hp0⟩ := List.exists_cons_of_ne_nil (hph p hp)
        rw [hp0, List.map_cons]
        exact maxD_mem
      rcases List.mem_map.mp hmm with ⟨e, he, heq⟩
      exact ⟨e, he, h.trans heq.symm⟩

/-- Witness for C2: one enrolled Alice profile probed with its own stored
vector. -/
theorem c2_scoring_and_ranking_witness :
    (([profAlice] : List Profile) ≠ []
      ∧ (∀ p ∈ ([profAlice] : List Profile), p.phrase_embeddings ≠ []))
    ∧ (∃ bm sorted,
        identify_speaker [1] [profAlice] IDENTIFICATION_THRESHOLD
          = some (MatchOut.result bm (loopBestScore [1] [profAlice]) sorted)
        ∧ sorted.Perm ([profAlice].map (entryOf [1]))
        ∧ sorted.Pairwise (fun a b : ScoreEntry => b.score ≤ a.score)
        ∧ ∀ p ∈ ([profAlice] : List Profile),
            cosineSim [1] p.voice_embedding ≤ (entryOf [1] p).score
            ∧ (∀ e ∈ p.phrase_embeddings,
                cosineSim [1] e ≤ (entryOf [1] p).score)
            ∧ ((entryOf [1] p).score = cosineSim [1] p.voice_embedding
               ∨ ∃ e ∈ p.phrase_embeddings,
                  (entryOf [1] p).score = cosineSim [1] e)) := by
  have h1 : ([profAlice] : List Profile) ≠ [] := by simp
  have h2 : ∀ p ∈ ([profAlice] : List Profile), p.phrase_embeddings ≠ [] := by
    intro p hp
    rw [List.mem_singleton] at hp
    subst hp
    simp [profAlice]
  exact ⟨⟨h1, h2⟩,
    c2_scoring_and_ranking [1] [profAlice] IDENTIFICATION_THRESHOLD h1 h2⟩

/-- C3 is refuted on the best-score clause: probing the single Alice
profile with the opposite vector gives every profile the score −1, yet the
matcher returns best score 0.0 — the loop folds from an initial
`best_score = 0.0` with a strict comparison, so the returned value is not
the maximum of `score(P)` when all scores are negative. -/
theorem c3_best_score_counterexample :
    identify_speaker [-1] [profAlice] IDENTIFICATION_THRESHOLD
      = some (MatchOut.result none 0
          [{ user_id := "id1", user_name := "Alice", score := -1
           , centroid_similarity := -1, max_phrase_similarity := -1 }])
    ∧ maxD ([profAlice].map (profileScore [-1])) = -1
    ∧ (0 : ℝ) ≠ -1 := by
  have h1 : ([profAlice] : List Profile) ≠ [] := by simp
  have h2 : ∀ p ∈ ([profAlice] : List Profile), p.phrase_embeddings ≠ [] := by
    intro p hp
    rw [List.mem_singleton] at hp
    subst hp
    simp [profAlice]
  have hscore : profileScore [-1] profAlice = -1 := by
    rw [profileScore]
    simp only [profAlice, List.map_cons, List.map_nil, maxD, List.foldl_nil,
      cosineSim_neg_one]
    norm_num
  have hentry : entryOf [-1] profAlice
      = { user_id := "id1", user_name := "Alice", score := -1
        , centroid_similarity := -1, max_phrase_similarity := -1 } := by
    rw [entryOf, hscore]
    simp only [profAlice, List.map_cons, List.map_nil, maxD, List.foldl_nil,
      cosineSim_neg_one]
  have hL : loopBestScore [-1] [profAlice] = 0 := by
    rw [loopBestScore]
    simp only [List.map_cons, List.map_nil, hscore, List.foldl_cons,
      List.foldl_nil]
    norm_num
  refine ⟨?_, ?_, by norm_num⟩
  · rw [identify_speaker_eq h1 h2, hL,
      if_neg (by norm_num [IDENTIFICATION_THRESHOLD])]
    rw [sortedEntries]
    simp only [List.map_cons, List.map_nil, List.mergeSort_singleton, hentry]
  · simp only [List.map_cons, List.map_nil, hscore, maxD, List.foldl_nil]

/-- C3 (amended): for a nonempty store the matcher returns best score
max(0, top profile score) — equal to the top score whenever any score is
nonnegative, in particular whenever identification succeeds; the result is
identified with a best-scoring profile exactly when the top score reaches
the 0.82 threshold; the response ranking is truncated to 5 entries when
identified and 3 when not; and an empty store produces the explicit
no-profiles answer, not an error. -/
theorem c3_decision_amended :
    (∀ (probe : Vec) (profiles : List Profile),
      profiles ≠ [] → (∀ p ∈ profiles, p.phrase_embeddings ≠ []) →
      ∃ bm sorted,
        identify_speaker probe profiles IDENTIFICATION_THRESHOLD
          = some (MatchOut.result bm (loopBestScore probe profiles) sorted)
        ∧ loopBestScore probe profiles
            = max 0 (maxD (profiles.map (profileScore probe)))
        ∧ ((∃ p, bm = some p) ↔
            IDENTIFICATION_THRESHOLD ≤ maxD (profiles.map (profileScore probe)))
        ∧ (∀ p, bm = some p → p ∈ profiles
            ∧ profileScore probe p = loopBestScore probe profiles
            ∧ ∀ q ∈ profiles, profileScore probe q ≤ profileScore probe p)
        ∧ (∀ p, bm = some p →
            identify_voice_response
                (MatchOut.result bm (loopBestScore probe profiles) sorted)
              = { identified := true, user_id := some p.user_id
                , user_name := some p.user_name
                , score := loopBestScore probe profiles
                , ranking := .scores (sorted.take 5) })
        ∧ (bm = none →
            identify_voice_response
                (MatchOut.result bm (loopBestScore probe profiles) sorted)
              = { identified := false, user_id := none, user_name := none
                , score := loopBestScore probe profiles
                , ranking := .scores (sorted.take 3) }))
    ∧ (∀ probe : Vec,
        identify_speaker probe [] IDENTIFICATION_THRESHOLD
            = some MatchOut.noProfiles
        ∧ identify_voice_response MatchOut.noProfiles
            = { identified := false, user_id := none, user_name := none
              , score := 0, ranking := .msg "No " }
        ∧ "No profiles in registry".take 3 = "No ") := by
  constructor
  · intro probe profiles hne hph
    have hthpos : (0 : ℝ) < IDENTIFICATION_THRESHOLD := by
      norm_num [IDENTIFICATION_THRESHOLD]
    refine ⟨_, sortedEntries probe profiles, identify_speaker_eq hne hph,
      loopBestScore_eq_max probe profiles, ?_, ?_, ?_, ?_⟩
    · constructor
      · rintro ⟨p, hp⟩
        by_cases hth : IDENTIFICATION_THRESHOLD ≤ loopBestScore probe profiles
        · rw [loopBestScore_eq_max, le_max_iff] at hth
          rcases hth with h0 | hM
          · linarith
          · exact hM
        · rw [if_neg hth] at hp
          exact Option.noConfusion hp
      · intro hM
        have hth : IDENTIFICATION_THRESHOLD ≤ loopBestScore probe profiles := by
          rw [loopBestScore_eq_max]
          exact le_trans hM (le_max_right _ _)
        have hpos : 0 < loopBestScore probe profiles := lt_of_lt_of_le hthpos hth
        obtain ⟨p, _, hfst, _⟩ := bestFold_fst_on_profiles hpos
        exact ⟨p, by rw [if_pos hth]; exact hfst⟩
    · intro p hp
      by_cases hth : IDENTIFICATION_THRESHOLD ≤ loopBestScore probe profiles
      · rw [if_pos hth] at hp
        have hpos : 0 < loopBestScore probe profiles := lt_of_lt_of_le hthpos hth
        obtain ⟨p', hp', hfst, hsc⟩ := bestFold_fst_on_profiles hpos
        have hpp : p' = p := Option.some.inj (hfst ▸ hp)
        subst hpp
        refine ⟨hp', hsc, ?_⟩
        intro q hq
        rw [hsc]
        exact profileScore_le_loopBest hq
      · rw [if_neg hth] at hp
        exact Option.noConfusion hp
    · intro p hp
      rw [hp]
      rfl
    · intro hp
      rw [hp]
      rfl
  · intro probe
    exact ⟨rfl, rfl, rfl⟩

/-- Witness for the amended C3: the Alice profile probed with its own
stored vector. -/
theorem c3_decision_amended_witness :
    (([profAlice] : List Profile) ≠ []
      ∧ (∀ p ∈ ([profAlice] : List Profile), p.phrase_embeddings ≠ []))
    ∧ (∃ bm sorted,
        identify_speaker [1] [profAlice] IDENTIFICATION_THRESHOLD
          = some (MatchOut.result bm (loopBestScore [1] [profAlice]) sorted)
        ∧ loopBestScore [1] [profAlice]
            = max 0 (maxD ([profAlice].map (profileScore [1])))
        ∧ ((∃ p, bm = some p) ↔
            IDENTIFICATION_THRESHOLD ≤ maxD ([profAlice].map (profileScore [1])))
        ∧ (∀ p, bm = some p → p ∈ ([profAlice] : List Profile)
            ∧ profileScore [1] p = loopBestScore [1] [profAlice]
            ∧ ∀ q ∈ ([profAlice] : List Profile),
                profileScore [1] q ≤ profileScore [1] p)
        ∧ (∀ p, bm = some p →
            identify_voice_response
                (MatchOut.result bm (loopBestScore [1] [profAlice]) sorted)
              = { identified := true, user_id := some p.user_id
                , user_name := some p.user_name
                , score := loopBestScore [1] [profAlice]
                , ranking := .scores (sorted.take 5) })
        ∧ (bm = none →
            identify_voice_response
                (MatchOut.result bm (loopBestScore [1] [profAlice]) sorted)
              = { identified := false, user_id := none, user_name := none
                , score := loopBestScore [1] [profAlice]
                , ranking := .scores (sorted.take 3) })) := by
  have h1 : ([profAlice] : List Profile) ≠ [] := by simp
  have h2 : ∀ p ∈ ([profAlice] : List Profile), p.phrase_embeddings ≠ [] := by
    intro p hp
    rw [List.mem_singleton] at hp
    subst hp
    simp [profAlice]
  exact ⟨⟨h1, h2⟩, c3_decision_amended.1 [1] [profAlice] h1 h2⟩

/-- C4: every accepted batch (N ≥ 2 same-dimension embeddings passing the
consistency check, with valid phrase indices) produces a profile whose
centroid is the element-wise mean re-normalized to unit L2 norm and is a
valid unit vector; and a batch of N identical unit vectors is accepted
with min and average consistency exactly 1.0 and centroid equal to the
input vector. -/
theorem c4_centroid :
    (∀ (es : List Vec) (d : ℕ) (name : String) (idx : List ℕ)
        (uid : String) (ts : ℝ),
      2 ≤ es.length → (∀ e ∈ es, e.length = d) →
      idx.all (· < ENROLLMENT_PHRASES.length) = true →
      (∀ m ∈ pairwiseSims es, (7 : ℝ) / 10 ≤ m) →
      ∃ p, create_voice_profile es name idx uid ts = Except.ok p
        ∧ p.voice_embedding = normalize (vecMean es)
        ∧ norm2 p.voice_embedding = 1)
    ∧ (∀ (v : Vec) (n : ℕ) (name : String) (idx : List ℕ)
        (uid : String) (ts : ℝ),
      2 ≤ n → norm2 v = 1 →
      idx.all (· < ENROLLMENT_PHRASES.length) = true →
      ∃ p, create_voice_profile (List.replicate n v) name idx uid ts
          = Except.ok p
        ∧ p.min_consistency = 1 ∧ p.consistency_score = 1
        ∧ p.voice_embedding = v) := by
  constructor
  · intro es d name idx uid ts h2 hd hidx hpass
    exact ⟨_, create_spec h2 hidx hpass, rfl, centroid_unit h2 hd hpass⟩
  · intro v n name idx uid ts h2 hunit hidx
    have h2' : 2 ≤ (List.replicate n v).length := by
      rw [List.length_replicate]
      exact h2
    have hall : ∀ m ∈ pairwiseSims (List.replicate n v), m = 1 := by
      intro m hm
      rcases pairwiseSims_mem_pair hm with ⟨a, ha, b, hb, hab⟩
      rw [List.eq_of_mem_replicate ha, List.eq_of_mem_replicate hb,
        cosineSim_self_of_unit hunit] at hab
      exact hab
    have hpass : ∀ m ∈ pairwiseSims (List.replicate n v), (7 : ℝ) / 10 ≤ m := by
      intro m hm
      rw [hall m hm]
      norm_num
    refine ⟨_, create_spec h2' hidx hpass, ?_, ?_, ?_⟩
    · obtain ⟨s, ss, hps⟩ :=
        List.exists_cons_of_ne_nil (pairwiseSims_ne_nil h2')
      show minD (pairwiseSims (List.replicate n v)) = 1
      rw [hps]
      exact minD_const (fun x hx => hall x (hps ▸ hx))
    · show (pairwiseSims (List.replicate n v)).sum
        / ((pairwiseSims (List.replicate n v)).length : ℝ) = 1
      rw [list_sum_const hall, mul_one]
      have hlenpos : 0 < (pairwiseSims (List.replicate n v)).length :=
        List.length_pos.mpr (pairwiseSims_ne_nil h2')
      have hne : ((pairwiseSims (List.replicate n v)).length : ℝ) ≠ 0 := by
        positivity
      exact div_self hne
    · show normalize (vecMean (List.replicate n v)) = v
      rw [vecMean_replicate (le_trans (by norm_num) h2), normalize, hunit]
      simp

/-- Witness for C4: the two-sample batch of unit vectors `[1]` for the
general clause, and five copies of the unit vector `[1]` for the
identical-inputs clause. -/
theorem c4_centroid_witness :
    (2 ≤ ([[(1 : ℝ)], [1]] : List Vec).length
      ∧ (∀ e ∈ ([[(1 : ℝ)], [1]] : List Vec), e.length = 1)
      ∧ ([0] : List ℕ).all (· < ENROLLMENT_PHRASES.length) = true
      ∧ (∀ m ∈ pairwiseSims [[(1 : ℝ)], [1]], (7 : ℝ) / 10 ≤ m)
      ∧ ∃ p, create_voice_profile [[(1 : ℝ)], [1]] "speaker" [0] "id0" 0
          = Except.ok p
        ∧ p.voice_embedding = normalize (vecMean [[(1 : ℝ)], [1]])
        ∧ norm2 p.voice_embedding = 1)
    ∧ (2 ≤ 5 ∧ norm2 [1] = 1
      ∧ ∃ p, create_voice_profile (List.replicate 5 ([1] : Vec)) "speaker"
          [0] "id0" 0 = Except.ok p
        ∧ p.min_consistency = 1 ∧ p.consistency_score = 1
        ∧ p.voice_embedding = [1]) := by
  have hpass : ∀ m ∈ pairwiseSims [[(1 : ℝ)], [1]], (7 : ℝ) / 10 ≤ m := by
    intro m hm
    simp only [pairwiseSims, List.map_cons, List.map_nil, List.append_nil,
      List.mem_singleton] at hm
    rw [hm, cosineSim_one_one]
    norm_num
  refine ⟨⟨by norm_num, ?_, by decide, hpass,
      c4_centroid.1 [[(1 : ℝ)], [1]] 1 "speaker" [0] "id0" 0 (by norm_num) ?_
        (by decide) hpass⟩,
    by norm_num, norm2_one_vec,
      c4_centroid.2 [1] 5 "speaker" [0] "id0" 0 (by norm_num) norm2_one_vec
        (by decide)⟩
  all_goals
    intro e he
    simp only [List.mem_cons, List.mem_singleton, List.not_mem_nil] at he
    rcases he with h | h | h
    · rw [h]; rfl
    · rw [h]; rfl
    · cases h

/-- C5: an otherwise-valid enrollment call fails with the duplicate-name
error precisely when some stored profile's name matches the requested name
case-insensitively, and on that failure the store is unchanged; with no
case-insensitive collision the duplicate-name check passes (the call never
returns that error). -/
theorem c5_duplicate_name :
    ∀ (name : String) (idx : List ℕ) (es : List Vec) (uid : String) (ts : ℝ)
      (store : Store),
      es.length = idx.length → REQUIRED_PHRASES ≤ es.length →
      idx.all (· < ENROLLMENT_PHRASES.length) = true →
      (((register_voice name idx es uid ts store).1
          = Except.error RegError.duplicateName
        ↔ ∃ p ∈ load_all_profiles store, strLower p.user_name = strLower name)
       ∧ ((register_voice name idx es uid ts store).1
          = Except.error RegError.duplicateName →
          (register_voice name idx es uid ts store).2 = store)) := by
  intro name idx es uid ts store hlen h5 hidx
  refine ⟨?_, register_voice_error_store⟩
  rw [register_voice, if_neg (by simp [hlen]), if_neg (not_lt.mpr h5),
    if_neg (by simp [hidx])]
  by_cases hdup : ((load_all_profiles store).any
      (fun p => strLower p.user_name == strLower name)) = true
  · rw [if_pos hdup]
    refine iff_of_true rfl ?_
    rcases List.any_eq_true.mp hdup with ⟨p, hp, hb⟩
    exact ⟨p, hp, by simpa using hb⟩
  · rw [if_neg hdup]
    refine iff_of_false ?_ ?_
    · intro h
      cases hc : create_voice_profile es name idx uid ts with
      | error ce =>
        rw [hc] at h
        simp at h
      | ok p =>
        rw [hc] at h
        simp at h
    · rintro ⟨p, hp, heq⟩
      exact hdup (List.any_eq_true.mpr ⟨p, hp, by simpa using heq⟩)

/-- Witness for C5: a store holding "Alice" rejects a well-formed
enrollment of "alice" with the duplicate-name error, leaving the store
unchanged. -/
theorem c5_duplicate_name_witness :
    (([[(1 : ℝ)], [1], [1], [1], [1]] : List Vec).length
        = ([0, 1, 2, 3, 4] : List ℕ).length
     ∧ REQUIRED_PHRASES ≤ ([[(1 : ℝ)], [1], [1], [1], [1]] : List Vec).length
     ∧ ([0, 1, 2, 3, 4] : List ℕ).all (· < ENROLLMENT_PHRASES.length) = true)
    ∧ (∃ p ∈ load_all_profiles [("id1", Record.good profAlice)],
        strLower p.user_name = strLower "alice")
    ∧ (register_voice "alice" [0, 1, 2, 3, 4]
        [[(1 : ℝ)], [1], [1], [1], [1]] "id9" 0
        [("id1", Record.good profAlice)]).1
      = Except.error RegError.duplicateName
    ∧ (register_voice "alice" [0, 1, 2, 3, 4]
        [[(1 : ℝ)], [1], [1], [1], [1]] "id9" 0
        [("id1", Record.good profAlice)]).2
      = [("id1", Record.good profAlice)] := by
  have hthm := c5_duplicate_name "alice" [0, 1, 2, 3, 4]
    [[(1 : ℝ)], [1], [1], [1], [1]] "id9" 0 [("id1", Record.good profAlice)]
    rfl (by norm_num [REQUIRED_PHRASES]) (by decide)
  have hex : ∃ p ∈ load_all_profiles [("id1", Record.good profAlice)],
      strLower p.user_name = strLower "alice" := by
    refine ⟨profAlice, ?_, by decide⟩
    simp [load_all_profiles, load_all_profiles_logged]
  have h1 := hthm.1.mpr hex
  exact ⟨⟨rfl, by norm_num [REQUIRED_PHRASES], by decide⟩, hex, h1, hthm.2 h1⟩

/-- C6 is violated by the implementation: `save_voice_profile` writes the
final `{user_id}.json` in place — `open(path, "w")` truncates/creates the
destination before `json.dump` streams the body — so between those two
points a reader observes a store that is neither the pre-call store nor
one holding the complete profile: the file for the new `user_id` already
exists but is unreadable (it is skipped by listing and unparseable by a
direct read), and a crash or failed dump leaves it that way. -/
theorem c6_save_not_atomic :
    readRecord (save_open profAlice []) "id1" = some Record.corrupt
    ∧ save_open profAlice [] ≠ ([] : Store)
    ∧ load_all_profiles (save_open profAlice []) = []
    ∧ save_voice_profile profAlice (save_open profAlice [])
        = [("id1", Record.good profAlice)] := by
  refine ⟨rfl, ?_, rfl, rfl⟩
  simp [save_open, setRecord]

/-- C7 is refuted on the phrase-embedding clause: the batch of five copies
of the non-unit vector `[2]` passes the consistency check (all pairwise
similarities are 1, cosine being scale-invariant) and is persisted, but
the stored `phrase_embeddings` are the raw inputs, whose L2 norm is 2, not
1 — the enrollment path never re-normalizes them. -/
theorem c7_phrase_norm_counterexample :
    create_voice_profile (List.replicate 5 ([2] : Vec)) "speaker"
        [0, 1, 2, 3, 4] "id0" 0
      = Except.ok
        { user_id := "id0", user_name := "speaker"
        , voice_embedding := normalize (vecMean (List.replicate 5 ([2] : Vec)))
        , phrase_embeddings := List.replicate 5 [2]
        , phrase_indices := [0, 1, 2, 3, 4]
        , phrases_used :=
            [0, 1, 2, 3, 4].map (fun i => ENROLLMENT_PHRASES.getD i "")
        , consistency_score :=
            (pairwiseSims (List.replicate 5 ([2] : Vec))).sum
              / ((pairwiseSims (List.replicate 5 ([2] : Vec))).length : ℝ)
        , min_consistency := minD (pairwiseSims (List.replicate 5 ([2] : Vec)))
        , enrollment_timestamp := 0
        , embedding_dim :=
            (normalize (vecMean (List.replicate 5 ([2] : Vec)))).length }
    ∧ [2] ∈ List.replicate 5 ([2] : Vec)
    ∧ norm2 [2] = 2
    ∧ ((2 : ℝ) ≠ 1) := by
  have hpass : ∀ m ∈ pairwiseSims (List.replicate 5 ([2] : Vec)),
      (7 : ℝ) / 10 ≤ m := by
    intro m hm
    rcases pairwiseSims_mem_pair hm with ⟨a, ha, b, hb, hab⟩
    rw [List.eq_of_mem_replicate ha, List.eq_of_mem_replicate hb,
      cosineSim_two_two] at hab
    rw [hab]
    norm_num
  refine ⟨?_, ?_, norm2_two_vec, by norm_num⟩
  · exact create_spec (by rw [List.length_replicate]; norm_num)
      (by decide) hpass
  · exact List.mem_replicate.mpr ⟨by norm_num, rfl⟩

/-- C7 (amended): for every accepted batch the centroid is stored with
unit L2 norm, and the phrase embeddings are persisted exactly as supplied,
so every stored vector has unit norm when the input embeddings are unit
vectors (as the upstream extractor guarantees), but not for arbitrary
non-normalized inputs. -/
theorem c7_unit_norm_amended :
    ∀ (es : List Vec) (d : ℕ) (name : String) (idx : List ℕ)
      (uid : String) (ts : ℝ),
      2 ≤ es.length → (∀ e ∈ es, e.length = d) →
      idx.all (· < ENROLLMENT_PHRASES.length) = true →
      (∀ m ∈ pairwiseSims es, (7 : ℝ) / 10 ≤ m) →
      ∃ p, create_voice_profile es name idx uid ts = Except.ok p
        ∧ norm2 p.voice_embedding = 1
        ∧ p.phrase_embeddings = es
        ∧ ((∀ e ∈ es, norm2 e = 1) → ∀ e ∈ p.phrase_embeddings, norm2 e = 1) := by
  intro es d name idx uid ts h2 hd hidx hpass
  exact ⟨_, create_spec h2 hidx hpass, centroid_unit h2 hd hpass, rfl,
    fun hu e he => hu e he⟩

/-- Witness for the amended C7: the two-sample batch of unit vectors
`[1]`. -/
theorem c7_unit_norm_amended_witness :
    (2 ≤ ([[(1 : ℝ)], [1]] : List Vec).length
     ∧ (∀ e ∈ ([[(1 : ℝ)], [1]] : List Vec), e.length = 1)
     ∧ ([0] : List ℕ).all (· < ENROLLMENT_PHRASES.length) = true
     ∧ (∀ m ∈ pairwiseSims [[(1 : ℝ)], [1]], (7 : ℝ) / 10 ≤ m))
    ∧ (∃ p, create_voice_profile [[(1 : ℝ)], [1]] "speaker" [0] "id0" 0
        = Except.ok p
      ∧ norm2 p.voice_embedding = 1
      ∧ p.phrase_embeddings = [[(1 : ℝ)], [1]]
      ∧ ((∀ e ∈ ([[(1 : ℝ)], [1]] : List Vec), norm2 e = 1) →
          ∀ e ∈ p.phrase_embeddings, norm2 e = 1)) := by
  have hpass : ∀ m ∈ pairwiseSims [[(1 : ℝ)], [1]], (7 : ℝ) / 10 ≤ m := by
    intro m hm
    simp only [pairwiseSims, List.map_cons, List.map_nil, List.append_nil,
      List.mem_singleton] at hm
    rw [hm, cosineSim_one_one]
    norm_num
  have hd : ∀ e ∈ ([[(1 : ℝ)], [1]] : List Vec), e.length = 1 := by
    intro e he
    simp only [List.mem_cons, List.mem_singleton, List.not_mem_nil] at he
    rcases he with h | h | h
    · rw [h]; rfl
    · rw [h]; rfl
    · cases h
  exact ⟨⟨by norm_num, hd, by decide, hpass⟩,
    c7_unit_norm_amended [[(1 : ℝ)], [1]] 1 "speaker" [0] "id0" 0
      (by norm_num) hd (by decide) hpass⟩

/-- C8: deleting an absent `user_id` fails with not-found and changes
nothing; deleting an existing readable profile succeeds (naming the
deleted user), after which both a single-profile read and a second delete
of the same `user_id` fail with not-found — deletion is not idempotent. -/
theorem c8_delete_semantics :
    (∀ (store : Store) (uid : String),
      readRecord store uid = none →
      delete_voice uid store = (Except.error DeleteError.notFound, store))
    ∧ (∀ (store : Store) (uid : String) (p : Profile),
      readRecord store uid = some (Record.good p) →
      (delete_voice uid store).1 = Except.ok p.user_name
      ∧ get_profile (delete_voice uid store).2 uid
          = Except.error GetError.notFound
      ∧ delete_voice uid (delete_voice uid store).2
          = (Except.error DeleteError.notFound, (delete_voice uid store).2)) := by
  constructor
  · intro store uid h
    rw [delete_voice, h]
  · intro store uid p h
    have hdel : delete_voice uid store
        = (Except.ok p.user_name, removeRecord store uid) := by
      rw [delete_voice, h]
    have hnone : readRecord (removeRecord store uid) uid = none :=
      readRecord_removeRecord store uid
    rw [hdel]
    exact ⟨rfl, by rw [get_profile, hnone], by rw [delete_voice, hnone]⟩

/-- Witness for C8: a one-profile store, probed at an absent key and at
the stored key. -/
theorem c8_delete_semantics_witness :
    (readRecord [("id1", Record.good profAlice)] "absent" = none
     ∧ delete_voice "absent" [("id1", Record.good profAlice)]
        = (Except.error DeleteError.notFound, [("id1", Record.good profAlice)]))
    ∧ (readRecord [("id1", Record.good profAlice)] "id1"
          = some (Record.good profAlice)
     ∧ (delete_voice "id1" [("id1", Record.good profAlice)]).1
          = Except.ok profAlice.user_name
     ∧ get_profile (delete_voice "id1" [("id1", Record.good profAlice)]).2 "id1"
          = Except.error GetError.notFound
     ∧ delete_voice "id1" (delete_voice "id1" [("id1", Record.good profAlice)]).2
          = (Except.error DeleteError.notFound,
             (delete_voice "id1" [("id1", Record.good profAlice)]).2)) := by
  have h1 : readRecord [("id1", Record.good profAlice)] "absent" = none := rfl
  have h2 : readRecord [("id1", Record.good profAlice)] "id1"
      = some (Record.good profAlice) := rfl
  exact ⟨⟨h1, c8_delete_semantics.1 _ _ h1⟩, h2, c8_delete_semantics.2 _ _ _ h2⟩

/-- C9: the listing returns exactly the profiles whose persisted records
parse, emits one logged warning per corrupt record instead of aborting,
and identification over a store with corrupt records equals identification
over the same store with those records absent. -/
theorem c9_listing_tolerance :
    (∀ (store : Store) (p : Profile),
      p ∈ load_all_profiles store ↔ ∃ uid, (uid, Record.good p) ∈ store)
    ∧ (∀ store : Store,
        (load_all_profiles_logged store).2.length
          = (store.filter (fun e => isCorrupt e.2)).length)
    ∧ (∀ (probe : Vec) (threshold : ℝ) (s₁ s₂ : Store) (k : String),
        identify_endpoint probe (s₁ ++ [(k, Record.corrupt)] ++ s₂) threshold
          = identify_endpoint probe (s₁ ++ s₂) threshold) := by
  refine ⟨load_all_profiles_good, load_all_warnings_count, ?_⟩
  intro probe threshold s₁ s₂ k
  rw [identify_endpoint, identify_endpoint, load_all_profiles_append,
    load_all_profiles_append, load_all_profiles_append]
  have hc : load_all_profiles [(k, Record.corrupt)] = [] := rfl
  rw [hc, List.append_nil]

/-- C10: deleting a `user_id` whose persisted record exists but does not
parse fails with the generic delete failure (not the not-found error) and
removes nothing, because `delete_voice` loads and parses the record before
`os.remove`. -/
theorem c10_delete_corrupt :
    ∀ (store : Store) (uid : String),
      readRecord store uid = some Record.corrupt →
      delete_voice uid store = (Except.error DeleteError.loadFailed, store) := by
  intro store uid h
  rw [delete_voice, h]

/-- Witness for C10: a store whose only record is unreadable. -/
theorem c10_delete_corrupt_witness :
    readRecord [("idX", Record.corrupt)] "idX" = some Record.corrupt
    ∧ delete_voice "idX" [("idX", Record.corrupt)]
        = (Except.error DeleteError.loadFailed, [("idX", Record.corrupt)]) :=
  ⟨rfl, c10_delete_corrupt _ _ rfl⟩

end VoiceRegistry
